import Mathlib

/-!
Shallow embedding of the GOAP planner (`gaap.ts`) and its store abstraction.

Modelling conventions:
* A `Store V` is the key/value `Map` held inside `createPseudoAgent`,
  represented as an association list in insertion order (JS `Map` iterates
  in insertion order; `Map.set` on an existing key keeps its position).
* JS `number` is modelled as `ℚ` for store values and deltas, and as
  `Int` for action costs (costs only ever enter sums and order
  comparisons, which integer arithmetic models exactly while staying
  kernel-computable).
* User-supplied closures (`canPerform`, `compare`, `check`) are pure in JS
  usage (they only read their arguments); they are embedded as Lean
  functions.  Effect `apply` mutates exactly the two stores it is handed,
  embedded as a function returning the updated pair.
* Methods that mutate a store they received are embedded in state-passing
  style: they return the updated stores alongside their result, and the
  planner threads those values exactly where the source threads the
  underlying object references.
* The JS exception raised by `introspect` when `plan_introspection`
  produces no plans (`newPlans[0].length` with `newPlans[0]` undefined) is
  embedded as `Except.error JsError.typeError`.
* Object identity of `Action` values (the `!=` comparison in
  `plan_introspection`'s filter) is modelled by an `id : Nat` field.
-/

namespace Gaap

/-- The three comparison symbols of `cmp` in the source. -/
inductive Cmp where
  | GT
  | LT
  | EQ
deriving DecidableEq

/-- The `"agent" | "world"` target discriminator (`ActionEffect["on"]`). -/
inductive Target where
  | agent
  | world
deriving DecidableEq

/-- The runtime error raised by reading `.length` of `undefined`. -/
inductive JsError where
  | typeError
deriving DecidableEq

/-- Backing data of a pseudo-agent store: the `Map<string, unknown>` inside
`createPseudoAgent`, as an association list in insertion order. -/
abbrev Store (V : Type) := List (String × V)

variable {V : Type}

/-- `get` of `createPseudoAgent`: first entry with the given key, if any. -/
def Store.get : Store V → String → Option V
  | [], _ => none
  | (k, v) :: rest, key => if k = key then some v else Store.get rest key

/-- `has` of `createPseudoAgent`: `values.has(key)`. -/
def Store.has (s : Store V) (key : String) : Bool :=
  (Store.get s key).isSome

/-- `keys` of `createPseudoAgent`: keys in insertion order. -/
def Store.keys (s : Store V) : List String :=
  s.map (fun e => e.1)

/-- `Map.set` on a key already present: replace the value in place. -/
def Store.update : Store V → String → V → Store V
  | [], _, _ => []
  | (k, v) :: rest, key, value =>
    if k = key then (k, value) :: rest else (k, v) :: Store.update rest key value

/-- `set` of `createPseudoAgent`: fails (and leaves the map unchanged) when
the key is absent, otherwise overwrites and succeeds. -/
def Store.set (s : Store V) (key : String) (value : V) : Bool × Store V :=
  if Store.has s key then (true, Store.update s key value) else (false, s)

/-- `put` of `createPseudoAgent`: fails when the key is present, otherwise
appends a fresh entry (JS `Map.set` on a new key appends) and succeeds. -/
def Store.put (s : Store V) (key : String) (value : V) : Bool × Store V :=
  if Store.has s key then (false, s) else (true, s ++ [(key, value)])

/-- A hypothetical `(agent, world)` pair (`Concept`). -/
structure Concept (V : Type) where
  agent : Store V
  world : Store V

/-- `ActionEffect`: named mutation of one target store. -/
structure ActionEffect (V : Type) where
  name : String
  on' : Target
  apply : Store V → Store V → Store V × Store V
  check : Store V → Store V → Option (Concept V)

/-- `Action`: costed operation with a precondition and a list of effects.
`id` models JS object identity (used by the `!=` filter in
`plan_introspection`). -/
structure Action (V : Type) where
  id : Nat
  name : String
  canPerform : Store V → Store V → Bool
  effects : List (ActionEffect V)
  cost : Int

/-- `Expects`: one goal criterion. -/
structure Expects (V : Type) where
  name : String
  target : Target
  property : String
  compare : Concept V → Concept V → Cmp
  check : Store V → Store V → Bool

/-- `Goal`: a named list of expectations. -/
structure Goal (V : Type) where
  name : String
  expectations : List (Expects V)

/-- The distinguished `NOOP` action. -/
def NOOP : Action V :=
  { id := 0
    name := "No Op"
    canPerform := fun _ _ => true
    effects := []
    cost := 0 }

/-- `applyAction`: apply every effect of the action, in order, to the pair. -/
def applyAction (agent world : Store V) (action : Action V) : Store V × Store V :=
  action.effects.foldl (fun aw fx => fx.apply aw.1 aw.2) (agent, world)

/-- `goalReached`: true iff every expectation's `check` holds. -/
def goalReached (goal : Goal V) (agent world : Store V) : Bool :=
  goal.expectations.all (fun expec => expec.check agent world)

/-- `goalCmp`: tally a point per expectation (`GT` to side A, `LT` to side
B, `EQ` to neither) and compare the totals. -/
def goalCmp (goal : Goal V) (agentA worldA agentB worldB : Store V) : Cmp :=
  let counts := goal.expectations.foldl
    (fun (c : Nat × Nat) expec =>
      match expec.compare ⟨agentA, worldA⟩ ⟨agentB, worldB⟩ with
      | Cmp.GT => (c.1 + 1, c.2)
      | Cmp.LT => (c.1, c.2 + 1)
      | Cmp.EQ => c)
    (0, 0)
  if counts.1 > counts.2 then Cmp.GT
  else if counts.2 > counts.1 then Cmp.LT
  else Cmp.EQ

/-- `planCost`: sum of the costs of the actions of a plan. -/
def planCost (plan : List (Action V)) : Int :=
  plan.foldl (fun cost action => cost + action.cost) 0

/-- `numCmp`. -/
def numCmp (a b : ℚ) : Cmp :=
  if a > b then Cmp.GT else if b > a then Cmp.LT else Cmp.EQ

/-- `pseudoAgentFrom`: build a fresh store and `put` every key of the
source store into it.  The `none` branch models `unwrap()` on a key listed
by `keys()`; it is unreachable because `get` succeeds on every listed key. -/
def pseudoAgentFrom (store : Store V) : Store V :=
  (Store.keys store).foldl
    (fun acc key =>
      match Store.get store key with
      | some v => (Store.put acc key v).2
      | none => acc)
    []

/-- `changeAmtEffect`: delta effect on one property of one target store,
clamped to `[min, max]` when a triple is supplied.  In the plain-delta case
the source clamps with `-Infinity`/`Infinity`, which is the identity, so no
clamping is applied.  A missing target property leaves the store unchanged;
in JS that path calls `unwrap()` on an absent value (guarded by
`canPerform`/`check` per the design). -/
def changeAmtEffect (a : Sum ℚ (ℚ × ℚ × ℚ)) (on' : Target) (propName : String) :
    ActionEffect ℚ :=
  let amount : ℚ := match a with
    | Sum.inl amt => amt
    | Sum.inr t => t.1
  let clamp : ℚ → ℚ := match a with
    | Sum.inl _ => fun x => x
    | Sum.inr t => fun x => min (max x t.2.1) t.2.2
  let updateStore : Store ℚ → Store ℚ := fun store =>
    match Store.get store propName with
    | some v => (Store.set store propName (clamp (v + amount))).2
    | none => store
  let app : Store ℚ → Store ℚ → Store ℚ × Store ℚ :=
    match on' with
    | Target.agent => fun agent world => (updateStore agent, world)
    | Target.world => fun agent world => (agent, updateStore world)
  { name :=
      (if amount < 0 then "Decrement " else "Increment ") ++ propName ++ " on " ++
        (match on' with
         | Target.agent => "agent"
         | Target.world => "world")
    on' := on'
    apply := app
    check := fun agent world =>
      let aO := Store.get agent propName
      let wO := Store.get world propName
      if on' = Target.agent ∧ aO = none then none
      else if on' = Target.world ∧ wO = none then none
      else
        let fA := pseudoAgentFrom agent
        let fW := pseudoAgentFrom world
        let r := app fA fW
        some ⟨r.1, r.2⟩ }

/-- `simulate_in_place`: replay a plan in place — before each plan action,
apply every ambient action unconditionally, then abort if the action's
precondition fails, otherwise apply it.  The (possibly mutated) stores are
returned alongside the success flag. -/
def Planner.simulate_in_place (ambient : List (Action V)) :
    List (Action V) → Store V → Store V → Bool × Store V × Store V
  | [], agent, world => (true, agent, world)
  | action :: rest, agent, world =>
    let aw := ambient.foldl (fun aw a => applyAction aw.1 aw.2 a) (agent, world)
    if action.canPerform aw.1 aw.2 then
      let aw2 := applyAction aw.1 aw.2 action
      Planner.simulate_in_place ambient rest aw2.1 aw2.2
    else (false, aw.1, aw.2)

/-- The `!=` filter of `plan_introspection`: keep an action unless it is the
object at the tail of the plan (`plan[plan.length - 1]`; for the empty plan
that indexing yields `undefined` and every action is kept). -/
def neqTail (plan : List (Action V)) (act : Action V) : Bool :=
  match plan.getLast? with
  | none => true
  | some tail => tail.id != act.id

/-- Candidate generation of `plan_introspection`: for each surviving
registered action, clone agent/world, replay the plan on the clones
(its success flag is not inspected by the source), and keep
`plan ++ [action]` when the action can be performed in the simulated
state. -/
def candidatePlans (actions ambient : List (Action V)) (plan : List (Action V))
    (agent world : Store V) : List (List (Action V)) :=
  (actions.filter (neqTail plan)).filterMap
    (fun action =>
      let simAgent := pseudoAgentFrom agent
      let simWorld := pseudoAgentFrom world
      let r := Planner.simulate_in_place ambient plan simAgent simWorld
      if action.canPerform r.2.1 r.2.2 then some (plan ++ [action]) else none)

/-- The record pushed onto `introspected`: a leaf plan together with the
clones of agent/world on which it has been fully replayed (ambient actions
interleaved). -/
def introTuple (ambient : List (Action V)) (agent world : Store V)
    (p : List (Action V)) : List (Action V) × Store V × Store V :=
  let simAgent := pseudoAgentFrom agent
  let simWorld := pseudoAgentFrom world
  let r := Planner.simulate_in_place ambient p simAgent simWorld
  (p, r.2.1, r.2.2)

/-- The sort comparator of `plan_introspection` as a number: `-1` when the
first replayed state wins under `goalCmp`, `1` when the second wins, and
the plan-cost difference on a tie. -/
def rankValue (goal : Goal V) (x y : List (Action V) × Store V × Store V) : Int :=
  match goalCmp goal x.2.1 x.2.2 y.2.1 y.2.2 with
  | Cmp.GT => -1
  | Cmp.LT => 1
  | Cmp.EQ => planCost x.1 - planCost y.1

/-- `x` may stay before `y` under the JS sort comparator. -/
def rankLe (goal : Goal V) (x y : List (Action V) × Store V × Store V) : Bool :=
  rankValue goal x y ≤ 0

/-- Stable insertion used to model `Array.prototype.sort` (stable since
ES2019): `x` is placed before the first element it compares `≤ 0` against. -/
def insertCmp (le : α → α → Bool) (x : α) : List α → List α
  | [] => [x]
  | y :: ys => if le x y then x :: y :: ys else y :: insertCmp le x ys

/-- Stable sort modelling `Array.prototype.sort` with a comparator. -/
def sortCmp (le : α → α → Bool) (l : List α) : List α :=
  l.foldr (insertCmp le) []

/-- The worklist loop of `plan_introspection`: pop each candidate plan (the
`reverse` of the candidate list, since `plans.pop()` takes the last element
first, is supplied by the caller), run the depth-decremented recursion
`rec` on it — threading the agent/world stores exactly as the source
passes the underlying object references — and push every returned leaf,
replayed on fresh clones of the current agent/world, onto the accumulator. -/
def introLoop (ambient : List (Action V))
    (rec : List (Action V) → Store V → Store V →
      List (List (Action V)) × Store V × Store V)
    (cands : List (List (Action V)))
    (init : List (List (Action V) × Store V × Store V) × Store V × Store V) :
    List (List (Action V) × Store V × Store V) × Store V × Store V :=
  cands.foldl
    (fun st p =>
      let r := rec p st.2.1 st.2.2
      (st.1 ++ r.1.map (introTuple ambient r.2.1 r.2.2), r.2.1, r.2.2))
    init

/-- `plan_introspection`: bounded-depth lookahead.  At depth `0` the plan
itself is the only leaf.  Otherwise generate candidate extensions, process
the worklist (`introLoop`), sort the replayed leaves by the comparator and
keep the first three. -/
def Planner.plan_introspection (actions ambient : List (Action V)) (goal : Goal V) :
    Nat → List (Action V) → Store V → Store V →
    List (List (Action V)) × Store V × Store V
  | 0, plan, agent, world => ([plan], agent, world)
  | d + 1, plan, agent, world =>
    let candidates := candidatePlans actions ambient plan agent world
    let st := introLoop ambient
      (fun p a w => Planner.plan_introspection actions ambient goal d p a w)
      candidates.reverse ([], agent, world)
    let sorted := sortCmp (rankLe goal) st.1
    (((sorted.take 3).map (fun x => x.1)), st.2.1, st.2.2)
termination_by structural d _ _ _ => d

/-- `introspect`: run `plan_introspection` and look at the best leaf.
`newPlans[0]` on an empty result is `undefined`, so reading its `.length`
raises a TypeError, embedded as `Except.error`.  When the best leaf is no
longer than the input plan the source reports `Option.None`; otherwise it
returns the first newly appended action.  (The local `newPlans` of the
source is inlined: the search is a pure function of its arguments, so the
repeated calls denote the one value the source binds.) -/
def Planner.introspect (actions ambient : List (Action V)) (goal : Goal V)
    (plan : List (Action V)) (agent world : Store V) (depth : Nat) :
    Except JsError (Option (Action V)) × Store V × Store V :=
  if depth = 0 then (Except.ok none, agent, world)
  else
    match (Planner.plan_introspection actions ambient goal depth plan agent world).1 with
    | [] =>
      (Except.error JsError.typeError,
        (Planner.plan_introspection actions ambient goal depth plan agent world).2.1,
        (Planner.plan_introspection actions ambient goal depth plan agent world).2.2)
    | newPlan :: _ =>
      if h : newPlan.length ≤ plan.length then
        (Except.ok none,
          (Planner.plan_introspection actions ambient goal depth plan agent world).2.1,
          (Planner.plan_introspection actions ambient goal depth plan agent world).2.2)
      else
        (Except.ok (some (newPlan.get ⟨plan.length, Nat.lt_of_not_le h⟩)),
          (Planner.plan_introspection actions ambient goal depth plan agent world).2.1,
          (Planner.plan_introspection actions ambient goal depth plan agent world).2.2)

/-- `simulate`: replay the whole plan on fresh clones and report whether
the goal is reached there; false as soon as a step fails. -/
def Planner.simulate (ambient : List (Action V)) (goal : Goal V)
    (plan : List (Action V)) (agent world : Store V) : Bool × Store V × Store V :=
  let fAgent := pseudoAgentFrom agent
  let fWorld := pseudoAgentFrom world
  let r := Planner.simulate_in_place ambient plan fAgent fWorld
  (if r.1 then goalReached goal r.2.1 r.2.2 else false, agent, world)

/-- The `while (!planDone && maxIterations > 0)` loop of `plan`, with the
remaining iteration budget as fuel.  Each round asks `introspect` for the
next action (propagating its TypeError), gives up with `Option.None` when
it reports none, otherwise appends the action and, when its precondition
holds on the real stores, validates the accumulated plan with `simulate`.
`Planner.simulate` replays the plan only on fresh clones, so the stores it
hands back are, definitionally, the ones it was given; the loop therefore
continues with the stores returned by `introspect`.  (The locals of the
source are inlined: all calls are pure functions of their arguments.) -/
def Planner.planLoop (actions ambient : List (Action V)) (goal : Goal V) :
    Nat → List (Action V) → Store V → Store V →
    Except JsError (Option (List (Action V))) × Store V × Store V
  | 0, acc, agent, world => (Except.ok (some acc), agent, world)
  | fuel + 1, acc, agent, world =>
    match (Planner.introspect actions ambient goal acc agent world 5).1 with
    | Except.error e =>
      (Except.error e,
        (Planner.introspect actions ambient goal acc agent world 5).2.1,
        (Planner.introspect actions ambient goal acc agent world 5).2.2)
    | Except.ok none =>
      (Except.ok none,
        (Planner.introspect actions ambient goal acc agent world 5).2.1,
        (Planner.introspect actions ambient goal acc agent world 5).2.2)
    | Except.ok (some op) =>
      if op.canPerform (Planner.introspect actions ambient goal acc agent world 5).2.1
          (Planner.introspect actions ambient goal acc agent world 5).2.2 then
        if (Planner.simulate ambient goal (acc ++ [op])
            (Planner.introspect actions ambient goal acc agent world 5).2.1
            (Planner.introspect actions ambient goal acc agent world 5).2.2).1 then
          (Except.ok (some (acc ++ [op])),
            (Planner.introspect actions ambient goal acc agent world 5).2.1,
            (Planner.introspect actions ambient goal acc agent world 5).2.2)
        else
          Planner.planLoop actions ambient goal fuel (acc ++ [op])
            (Planner.introspect actions ambient goal acc agent world 5).2.1
            (Planner.introspect actions ambient goal acc agent world 5).2.2
      else
        Planner.planLoop actions ambient goal fuel (acc ++ [op])
          (Planner.introspect actions ambient goal acc agent world 5).2.1
          (Planner.introspect actions ambient goal acc agent world 5).2.2

/-- `plan`: a goal with no expectations plans to `[NOOP]`; otherwise run
the introspection loop with the 50-iteration budget starting from the
empty plan. -/
def Planner.plan (actions ambient : List (Action V)) (goal : Goal V)
    (agent world : Store V) :
    Except JsError (Option (List (Action V))) × Store V × Store V :=
  if goal.expectations.length = 0 then (Except.ok (some [NOOP]), agent, world)
  else Planner.planLoop actions ambient goal 50 [] agent world

/-! ## Spec-side notions used by the claims -/

/-- Inversion of a comparison: `GT` and `LT` swapped, `EQ` unchanged (the
`invert` of the spec's determinism property). -/
def Cmp.invert : Cmp → Cmp
  | Cmp.GT => Cmp.LT
  | Cmp.LT => Cmp.GT
  | Cmp.EQ => Cmp.EQ

/-- The leaf plans collected by one level of the search: every plan the
depth-decremented recursion produces for some candidate, in worklist (pop)
order. -/
def leafPlans (actions ambient : List (Action V)) (goal : Goal V) (d : Nat)
    (plan : List (Action V)) (agent world : Store V) : List (List (Action V)) :=
  ((candidatePlans actions ambient plan agent world).reverse.map
    (fun p => (Planner.plan_introspection actions ambient goal d p agent world).1)).flatten

/-- The ranking order described by the spec: replay both leaf plans fully
(ambient actions interleaved) on fresh clones of agent/world, compare the
resulting states by `goalCmp` (descending), and break ties by ascending
`planCost`. -/
def replayLe (ambient : List (Action V)) (goal : Goal V) (agent world : Store V)
    (x y : List (Action V)) : Bool :=
  rankLe goal (introTuple ambient agent world x) (introTuple ambient agent world y)

/-- The spec-side ranking pipeline: sort the collected leaf plans by the
replay order and keep the top three (beam width 3). -/
def topRankedLeafPlans (actions ambient : List (Action V)) (goal : Goal V) (d : Nat)
    (plan : List (Action V)) (agent world : Store V) : List (List (Action V)) :=
  (sortCmp (replayLe ambient goal agent world)
    (leafPlans actions ambient goal d plan agent world)).take 3

/-- Hypothesis of the infeasibility claim, transcribed from its wording: no
registered action has an effect whose `check` yields a hypothetical concept
that some unmet expectation's `compare` ranks `GT` against the current
(agent, world) state. -/
def noEffectRanksGT (actions : List (Action V)) (goal : Goal V)
    (agent world : Store V) : Prop :=
  ∀ act ∈ actions, ∀ fx ∈ act.effects, ∀ e ∈ goal.expectations,
    e.check agent world = false →
    ∀ c, fx.check agent world = some c →
      e.compare c ⟨agent, world⟩ ≠ Cmp.GT

/-! ## Lemmas about the stable sort -/

theorem mem_insertCmp {α : Type _} {le : α → α → Bool} {x a : α} :
    ∀ {l : List α}, a ∈ insertCmp le x l ↔ a = x ∨ a ∈ l := by
  intro l
  induction l with
  | nil => simp [insertCmp]
  | cons y ys ih =>
    by_cases h : le x y
    · simp [insertCmp, h]
    · simp only [insertCmp, h, Bool.false_eq_true, if_false, List.mem_cons, ih]
      tauto

theorem mem_sortCmp {α : Type _} {le : α → α → Bool} {a : α} :
    ∀ {l : List α}, a ∈ sortCmp le l ↔ a ∈ l := by
  intro l
  induction l with
  | nil => simp [sortCmp]
  | cons y ys ih =>
    show a ∈ insertCmp le y (sortCmp le ys) ↔ _
    rw [mem_insertCmp]
    simp [ih]

theorem insertCmp_map {α β : Type _} {le : β → β → Bool} (f : α → β) (x : α) :
    ∀ (l : List α),
      insertCmp le (f x) (l.map f) =
        (insertCmp (fun a b => le (f a) (f b)) x l).map f := by
  intro l
  induction l with
  | nil => rfl
  | cons y ys ih =>
    simp only [List.map_cons, insertCmp]
    by_cases h : le (f x) (f y) <;> simp [h, ih]

theorem sortCmp_map {α β : Type _} {le : β → β → Bool} (f : α → β) :
    ∀ (l : List α),
      sortCmp le (l.map f) = (sortCmp (fun a b => le (f a) (f b)) l).map f := by
  intro l
  induction l with
  | nil => rfl
  | cons x xs ih =>
    show insertCmp le (f x) (sortCmp le (xs.map f)) = _
    rw [ih, insertCmp_map]
    rfl

/-! ## Frame and shape lemmas for the search -/

theorem introLoop_snd (ambient : List (Action V))
    (rec : List (Action V) → Store V → Store V →
      List (List (Action V)) × Store V × Store V)
    (hrec : ∀ p a w, (rec p a w).2 = (a, w)) :
    ∀ (cands : List (List (Action V)))
      (acc : List (List (Action V) × Store V × Store V)) (agent world : Store V),
      (introLoop ambient rec cands (acc, agent, world)).2 = (agent, world) := by
  intro cands
  induction cands with
  | nil => intro acc agent world; rfl
  | cons p cands ih =>
    intro acc agent world
    show (introLoop ambient rec cands
        (acc ++ (rec p agent world).1.map
          (introTuple ambient (rec p agent world).2.1 (rec p agent world).2.2),
         (rec p agent world).2.1, (rec p agent world).2.2)).2 = (agent, world)
    rw [hrec p agent world]
    exact ih _ agent world

theorem introLoop_fst (ambient : List (Action V))
    (rec : List (Action V) → Store V → Store V →
      List (List (Action V)) × Store V × Store V)
    (hrec : ∀ p a w, (rec p a w).2 = (a, w)) :
    ∀ (cands : List (List (Action V)))
      (acc : List (List (Action V) × Store V × Store V)) (agent world : Store V),
      (introLoop ambient rec cands (acc, agent, world)).1 =
        acc ++ (cands.map
          (fun p => (rec p agent world).1.map (introTuple ambient agent world))).flatten := by
  intro cands
  induction cands with
  | nil => intro acc agent world; simp [introLoop]
  | cons p cands ih =>
    intro acc agent world
    show (introLoop ambient rec cands
        (acc ++ (rec p agent world).1.map
          (introTuple ambient (rec p agent world).2.1 (rec p agent world).2.2),
         (rec p agent world).2.1, (rec p agent world).2.2)).1 = _
    rw [hrec p agent world]
    show (introLoop ambient rec cands
        (acc ++ (rec p agent world).1.map (introTuple ambient agent world),
         agent, world)).1 = _
    rw [ih]
    simp [List.append_assoc]

theorem plan_introspection_succ (actions ambient : List (Action V)) (goal : Goal V)
    (d : Nat) (plan : List (Action V)) (agent world : Store V) :
    Planner.plan_introspection actions ambient goal (d + 1) plan agent world =
      (let st := introLoop ambient
          (fun p a w => Planner.plan_introspection actions ambient goal d p a w)
          (candidatePlans actions ambient plan agent world).reverse ([], agent, world)
       (((sortCmp (rankLe goal) st.1).take 3).map (fun x => x.1), st.2.1, st.2.2)) := rfl

theorem plan_introspection_snd (actions ambient : List (Action V)) (goal : Goal V) :
    ∀ (d : Nat) (plan : List (Action V)) (agent world : Store V),
      (Planner.plan_introspection actions ambient goal d plan agent world).2 =
        (agent, world) := by
  intro d
  induction d with
  | zero => intro plan agent world; rfl
  | succ d ih =>
    intro plan agent world
    exact introLoop_snd ambient
      (fun p a w => Planner.plan_introspection actions ambient goal d p a w)
      (fun p a w => ih p a w)
      (candidatePlans actions ambient plan agent world).reverse [] agent world

theorem plan_introspection_fst (actions ambient : List (Action V)) (goal : Goal V)
    (d : Nat) (plan : List (Action V)) (agent world : Store V) :
    (Planner.plan_introspection actions ambient goal (d + 1) plan agent world).1 =
      ((sortCmp (rankLe goal)
          (((candidatePlans actions ambient plan agent world).reverse.map
            (fun p => (Planner.plan_introspection actions ambient goal d p agent world).1.map
              (introTuple ambient agent world))).flatten)).take 3).map (fun x => x.1) := by
  rw [plan_introspection_succ]
  dsimp only
  rw [introLoop_fst ambient
    (fun p a w => Planner.plan_introspection actions ambient goal d p a w)
    (fun p a w => plan_introspection_snd actions ambient goal d p a w)
    (candidatePlans actions ambient plan agent world).reverse [] agent world]
  simp

theorem mem_candidatePlans {actions ambient : List (Action V)}
    {plan : List (Action V)} {agent world : Store V} {p : List (Action V)}
    (h : p ∈ candidatePlans actions ambient plan agent world) :
    ∃ act, p = plan ++ [act] := by
  rcases List.mem_filterMap.mp h with ⟨act, -, heq⟩
  dsimp only at heq
  split at heq
  · exact ⟨act, (Option.some.inj heq).symm⟩
  · simp at heq

theorem plan_introspection_leaves (actions ambient : List (Action V)) (goal : Goal V) :
    ∀ (d : Nat) (plan : List (Action V)) (agent world : Store V)
      (q : List (Action V)),
      q ∈ (Planner.plan_introspection actions ambient goal d plan agent world).1 →
      q.length = plan.length + d ∧ ∃ t, q = plan ++ t := by
  intro d
  induction d with
  | zero =>
    intro plan agent world q hq
    have hq2 : q ∈ [plan] := hq
    have hq3 : q = plan := by simpa using hq2
    subst hq3
    exact ⟨by simp, [], by simp⟩
  | succ d ih =>
    intro plan agent world q hq
    rw [plan_introspection_fst] at hq
    rcases List.mem_map.mp hq with ⟨x, hx, rfl⟩
    have hx2 := List.mem_of_mem_take hx
    have hx3 := mem_sortCmp.mp hx2
    rcases List.mem_flatten.mp hx3 with ⟨lx, hlx, hxin⟩
    rcases List.mem_map.mp hlx with ⟨p, hp, rfl⟩
    rcases List.mem_map.mp hxin with ⟨q2, hq2, rfl⟩
    rcases ih p agent world q2 hq2 with ⟨hlen, t, ht⟩
    rcases mem_candidatePlans (List.mem_reverse.mp hp) with ⟨act, rfl⟩
    constructor
    · show q2.length = plan.length + (d + 1)
      rw [hlen]
      simp
      omega
    · refine ⟨act :: t, ?_⟩
      show q2 = plan ++ (act :: t)
      rw [ht]
      simp

theorem simulate_snd (ambient : List (Action V)) (goal : Goal V)
    (plan : List (Action V)) (agent world : Store V) :
    (Planner.simulate ambient goal plan agent world).2 = (agent, world) := rfl

theorem introspect_snd (actions ambient : List (Action V)) (goal : Goal V)
    (plan : List (Action V)) (agent world : Store V) (depth : Nat) :
    (Planner.introspect actions ambient goal plan agent world depth).2 =
      (agent, world) := by
  unfold Planner.introspect
  split
  · rfl
  · split
    · simp [plan_introspection_snd]
    · split <;> simp [plan_introspection_snd]

theorem planLoop_snd (actions ambient : List (Action V)) (goal : Goal V) :
    ∀ (fuel : Nat) (acc : List (Action V)) (agent world : Store V),
      (Planner.planLoop actions ambient goal fuel acc agent world).2 =
        (agent, world) := by
  intro fuel
  induction fuel with
  | zero => intro acc agent world; rfl
  | succ fuel ih =>
    intro acc agent world
    simp only [Planner.planLoop]
    split
    · simp [introspect_snd]
    · simp [introspect_snd]
    · split
      · split
        · simp [Planner.simulate, introspect_snd]
        · rw [ih]; simp [Planner.simulate, introspect_snd]
      · rw [ih]; simp [introspect_snd]

theorem plan_snd (actions ambient : List (Action V)) (goal : Goal V)
    (agent world : Store V) :
    (Planner.plan actions ambient goal agent world).2 = (agent, world) := by
  unfold Planner.plan
  split
  · rfl
  · exact planLoop_snd actions ambient goal 50 [] agent world

/-! ## The error path taken when no candidate action exists -/

theorem candidatePlans_empty (actions ambient : List (Action V))
    (agent world : Store V)
    (h : ∀ a ∈ actions,
      a.canPerform (pseudoAgentFrom agent) (pseudoAgentFrom world) = false) :
    candidatePlans actions ambient [] agent world = [] := by
  unfold candidatePlans
  rw [List.filterMap_eq_nil_iff]
  intro a ha
  dsimp only
  simp only [Planner.simulate_in_place]
  simp [h a (List.mem_of_mem_filter ha)]

theorem plan_introspection_no_candidates (actions ambient : List (Action V))
    (goal : Goal V) (d : Nat) (plan : List (Action V)) (agent world : Store V)
    (h : candidatePlans actions ambient plan agent world = []) :
    (Planner.plan_introspection actions ambient goal (d + 1) plan agent world).1 =
      [] := by
  rw [plan_introspection_fst, h]
  rfl

theorem introspect_of_no_plans (actions ambient : List (Action V)) (goal : Goal V)
    (plan : List (Action V)) (agent world : Store V) (d : Nat)
    (h : (Planner.plan_introspection actions ambient goal (d + 1) plan agent world).1 = []) :
    (Planner.introspect actions ambient goal plan agent world (d + 1)).1 =
      Except.error JsError.typeError := by
  unfold Planner.introspect
  rw [if_neg (by omega : ¬ (d + 1) = 0)]
  rw [h]

theorem planLoop_of_error (actions ambient : List (Action V)) (goal : Goal V)
    (fuel : Nat) (acc : List (Action V)) (agent world : Store V) (e : JsError)
    (h : (Planner.introspect actions ambient goal acc agent world 5).1 =
      Except.error e) :
    (Planner.planLoop actions ambient goal (fuel + 1) acc agent world).1 =
      Except.error e := by
  simp only [Planner.planLoop]
  rw [h]

theorem plan_of_expectations_ne (actions ambient : List (Action V)) (goal : Goal V)
    (agent world : Store V) (h : goal.expectations ≠ []) :
    Planner.plan actions ambient goal agent world =
      Planner.planLoop actions ambient goal 50 [] agent world := by
  unfold Planner.plan
  rw [if_neg (by simpa [List.length_eq_zero] using h)]

/-! ## Counting characterization of goalCmp -/

theorem goalCmp_eq_counts (goal : Goal V) (aA wA aB wB : Store V) :
    goalCmp goal aA wA aB wB =
      (if goal.expectations.countP (fun e => e.compare ⟨aA, wA⟩ ⟨aB, wB⟩ == Cmp.GT) >
          goal.expectations.countP (fun e => e.compare ⟨aA, wA⟩ ⟨aB, wB⟩ == Cmp.LT)
        then Cmp.GT
       else if goal.expectations.countP (fun e => e.compare ⟨aA, wA⟩ ⟨aB, wB⟩ == Cmp.LT) >
          goal.expectations.countP (fun e => e.compare ⟨aA, wA⟩ ⟨aB, wB⟩ == Cmp.GT)
        then Cmp.LT
       else Cmp.EQ) := by
  have key : ∀ (l : List (Expects V)) (c : Nat × Nat),
      l.foldl (fun c expec =>
        match expec.compare ⟨aA, wA⟩ ⟨aB, wB⟩ with
        | Cmp.GT => (c.1 + 1, c.2)
        | Cmp.LT => (c.1, c.2 + 1)
        | Cmp.EQ => c) c
      = (c.1 + l.countP (fun e => e.compare ⟨aA, wA⟩ ⟨aB, wB⟩ == Cmp.GT),
         c.2 + l.countP (fun e => e.compare ⟨aA, wA⟩ ⟨aB, wB⟩ == Cmp.LT)) := by
    intro l
    induction l with
    | nil => intro c; simp
    | cons e l ih =>
      intro c
      rw [List.foldl_cons, ih, List.countP_cons, List.countP_cons]
      rcases hfe : e.compare ⟨aA, wA⟩ ⟨aB, wB⟩ with _ | _ | _ <;>
        simp [hfe, Prod.ext_iff] <;> omega
  unfold goalCmp
  dsimp only
  rw [key]
  simp

/-! ## Store lemmas -/

theorem Store.get_of_not_has {s : Store V} {k : String}
    (h : Store.has s k = false) : Store.get s k = none := by
  unfold Store.has at h
  cases hg : Store.get s k
  · rfl
  · rw [hg] at h
    simp at h

theorem Store.has_of_get {s : Store V} {k : String} {v : V}
    (h : Store.get s k = some v) : Store.has s k = true := by
  unfold Store.has
  rw [h]
  rfl

theorem Store.get_append_self {s : Store V} {k : String} {v : V}
    (h : Store.get s k = none) :
    Store.get (s ++ [(k, v)]) k = some v := by
  induction s with
  | nil => simp [Store.get]
  | cons e s ih =>
    rw [List.cons_append]
    rcases e with ⟨k1, v1⟩
    simp only [Store.get] at h ⊢
    by_cases hk : k1 = k
    · rw [if_pos hk] at h
      simp at h
    · rw [if_neg hk] at h ⊢
      exact ih h

theorem Store.get_update_self {s : Store V} {k : String} {v0 : V} (v : V)
    (h : Store.get s k = some v0) :
    Store.get (Store.update s k v) k = some v := by
  induction s with
  | nil => simp [Store.get] at h
  | cons e s ih =>
    rcases e with ⟨k1, v1⟩
    simp only [Store.get, Store.update] at h ⊢
    by_cases hk : k1 = k
    · rw [if_pos hk]
      simp only [Store.get]
      rw [if_pos hk]
    · rw [if_neg hk] at h
      rw [if_neg hk]
      simp only [Store.get]
      rw [if_neg hk]
      exact ih h

/-! ## Concrete instances used by counterexamples and witnesses -/

/-- An always-met expectation whose comparator is constantly `EQ`. -/
def trivExp : Expects ℚ :=
  { name := "e", target := Target.agent, property := "p",
    compare := fun _ _ => Cmp.EQ, check := fun _ _ => true }

/-- A goal with the single expectation `trivExp`. -/
def trivGoal : Goal ℚ := { name := "g", expectations := [trivExp] }

/-- A never-met expectation whose comparator is constantly `EQ`. -/
def falseExp : Expects ℚ :=
  { name := "e", target := Target.agent, property := "p",
    compare := fun _ _ => Cmp.EQ, check := fun _ _ => false }

/-- A goal with the single expectation `falseExp`. -/
def oneExpGoal : Goal ℚ := { name := "g", expectations := [falseExp] }

/-- An expectation whose comparator is constantly `GT` (legal per the
`Expects` interface: `compare` is an arbitrary supplied closure). -/
def gtExp : Expects ℚ :=
  { name := "e", target := Target.agent, property := "p",
    compare := fun _ _ => Cmp.GT, check := fun _ _ => true }

/-- A goal with the single expectation `gtExp`. -/
def gtGoal : Goal ℚ := { name := "g", expectations := [gtExp] }

/-- An always-performable action with no effects and zero cost. -/
def actA : Action ℚ :=
  { id := 1, name := "A", canPerform := fun _ _ => true, effects := [], cost := 0 }

/-- A second always-performable action with no effects and zero cost. -/
def actB : Action ℚ :=
  { id := 2, name := "B", canPerform := fun _ _ => true, effects := [], cost := 0 }

/-! ## The claims -/

/-- Claim C1: for every goal, registered actions, ambient actions and
agent/world stores, `Planner.plan` leaves the real agent and world stores
unchanged — the store values threaded through the whole search (the
embedding of the objects the source mutates in place) come back equal to
the inputs.  All speculative mutation happens only on `pseudoAgentFrom`
clones; the claim's purity hypothesis on `canPerform`/`check`/`compare` is
expressed by their embedding as pure functions. -/
theorem plan_preserves_real_stores (actions ambient : List (Action V))
    (goal : Goal V) (agent world : Store V) :
    (Planner.plan actions ambient goal agent world).2.1 = agent ∧
    (Planner.plan actions ambient goal agent world).2.2 = world := by
  have h := plan_snd actions ambient goal agent world
  constructor
  · rw [h]
  · rw [h]

/-- Claim C9: `Planner.plan` is deterministic — a second call on the
stores handed back by a first call (which are the unmodified inputs)
returns the same plan, the same action values in the same order; no
randomness or hidden state occurs anywhere in ranking or selection. -/
theorem plan_deterministic (actions ambient : List (Action V)) (goal : Goal V)
    (agent world : Store V) :
    (Planner.plan actions ambient goal
        (Planner.plan actions ambient goal agent world).2.1
        (Planner.plan actions ambient goal agent world).2.2).1 =
      (Planner.plan actions ambient goal agent world).1 := by
  have h := plan_snd actions ambient goal agent world
  rw [show (Planner.plan actions ambient goal agent world).2.1 = agent from by rw [h],
    show (Planner.plan actions ambient goal agent world).2.2 = world from by rw [h]]

/-- Claim C6: at depth at least one, `plan_introspection` returns at most
3 plans, and exactly the top-ranked collected leaf plans under the order
obtained by fully replaying each leaf (ambient actions interleaved before
each plan action) on a fresh clone of agent/world, comparing the resulting
states descending by `goalCmp` and breaking ties by ascending `planCost`
(`topRankedLeafPlans`, the stable sort modelling the source's
`Array.prototype.sort`). -/
theorem plan_introspection_beam (actions ambient : List (Action V)) (goal : Goal V)
    (d : Nat) (plan : List (Action V)) (agent world : Store V) :
    (Planner.plan_introspection actions ambient goal (d + 1) plan agent world).1.length ≤ 3 ∧
    (Planner.plan_introspection actions ambient goal (d + 1) plan agent world).1 =
      topRankedLeafPlans actions ambient goal d plan agent world := by
  constructor
  · rw [plan_introspection_fst]
    rw [List.length_map]
    exact List.length_take_le 3 _
  · rw [plan_introspection_fst]
    have hmap : (List.map (fun p => List.map (introTuple ambient agent world)
          (Planner.plan_introspection actions ambient goal d p agent world).1)
          (candidatePlans actions ambient plan agent world).reverse).flatten
        = (leafPlans actions ambient goal d plan agent world).map
            (introTuple ambient agent world) := by
      unfold leafPlans
      rw [List.map_flatten, List.map_map]
      rfl
    rw [hmap, sortCmp_map, ← List.map_take, List.map_map]
    have hid : ((fun x : List (Action V) × Store V × Store V => x.1) ∘
        introTuple ambient agent world) = fun q => q := rfl
    rw [hid, List.map_id']
    rfl

/-- Claim C10: every plan returned by `plan_introspection` at depth
`d + 1` has length exactly `plan.length + (d + 1)` and strictly extends
the input plan by a nonempty suffix (branches that cannot be extended to
full depth are discarded, never returned shorter); moreover the result can
be the empty list (here: with no registered actions), even though the
input plan itself would be a valid leaf. -/
theorem plan_introspection_leaf_lengths :
    (∀ (V : Type) (actions ambient : List (Action V)) (goal : Goal V) (d : Nat)
        (plan : List (Action V)) (agent world : Store V) (q : List (Action V)),
        q ∈ (Planner.plan_introspection actions ambient goal (d + 1) plan agent world).1 →
        q.length = plan.length + (d + 1) ∧ ∃ t, t ≠ [] ∧ q = plan ++ t) ∧
    (Planner.plan_introspection ([] : List (Action ℚ)) [] trivGoal 1 [] [] []).1 = [] := by
  constructor
  · intro V actions ambient goal d plan agent world q hq
    rcases plan_introspection_leaves actions ambient goal (d + 1) plan agent world q hq
      with ⟨hlen, t, ht⟩
    refine ⟨hlen, t, ?_, ht⟩
    intro ht0
    subst ht0
    rw [List.append_nil] at ht
    subst ht
    omega
  · rfl

/-- Witness for claim C10 at a concrete input: with one registered
always-performable action and the empty input plan at depth 1, the single
returned plan `[actA]` has length `0 + 1` and extends `[]` by a nonempty
suffix. -/
theorem plan_introspection_leaf_lengths_witness :
    ([actA] : List (Action ℚ)).length = ([] : List (Action ℚ)).length + (0 + 1) ∧
    ∃ t, t ≠ [] ∧ ([actA] : List (Action ℚ)) = [] ++ t :=
  plan_introspection_leaf_lengths.1 ℚ [actA] [] trivGoal 0 [] [] [] [actA]
    (by show [actA] ∈ [[actA]]; exact List.mem_singleton.mpr rfl)

/-- Claim C5: `goalCmp` is a majority vote — one point per expectation
(`GT` a point for side A, `LT` a point for side B, `EQ` none, so no
expectation contributes more than one vote regardless of magnitude), and
the result is `GT` iff side A has strictly more points, `LT` iff side B
has strictly more, `EQ` iff the points tie exactly. -/
theorem goalCmp_majority_vote (goal : Goal V) (agentA worldA agentB worldB : Store V) :
    (goalCmp goal agentA worldA agentB worldB = Cmp.GT ↔
      goal.expectations.countP
          (fun e => e.compare ⟨agentA, worldA⟩ ⟨agentB, worldB⟩ == Cmp.GT) >
        goal.expectations.countP
          (fun e => e.compare ⟨agentA, worldA⟩ ⟨agentB, worldB⟩ == Cmp.LT)) ∧
    (goalCmp goal agentA worldA agentB worldB = Cmp.LT ↔
      goal.expectations.countP
          (fun e => e.compare ⟨agentA, worldA⟩ ⟨agentB, worldB⟩ == Cmp.LT) >
        goal.expectations.countP
          (fun e => e.compare ⟨agentA, worldA⟩ ⟨agentB, worldB⟩ == Cmp.GT)) ∧
    (goalCmp goal agentA worldA agentB worldB = Cmp.EQ ↔
      goal.expectations.countP
          (fun e => e.compare ⟨agentA, worldA⟩ ⟨agentB, worldB⟩ == Cmp.GT) =
        goal.expectations.countP
          (fun e => e.compare ⟨agentA, worldA⟩ ⟨agentB, worldB⟩ == Cmp.LT)) := by
  rw [goalCmp_eq_counts]
  generalize goal.expectations.countP
    (fun e => e.compare ⟨agentA, worldA⟩ ⟨agentB, worldB⟩ == Cmp.GT) = m
  generalize goal.expectations.countP
    (fun e => e.compare ⟨agentA, worldA⟩ ⟨agentB, worldB⟩ == Cmp.LT) = n
  rcases Nat.lt_trichotomy m n with h | h | h
  · simp [show ¬ m > n from by omega, show n > m from by omega]
    omega
  · subst h
    simp
  · simp [show m > n from by omega, show ¬ n > m from by omega]
    omega

/-- Counterexample to claim C4 as stated: `goalCmp` is quantified over
every goal, and an expectation's `compare` is an arbitrary supplied
closure.  With the constant-`GT` comparator `gtExp`, comparing a state
with itself yields `GT`, which is neither `EQ` nor equal to the inversion
of the swapped comparison. -/
theorem goalCmp_antisymmetry_counterexample :
    goalCmp gtGoal ([] : Store ℚ) [] [] [] ≠
      (goalCmp gtGoal ([] : Store ℚ) [] [] []).invert ∧
    goalCmp gtGoal ([] : Store ℚ) [] [] [] ≠ Cmp.EQ := by
  decide

/-- Claim C4, amended: when every expectation's `compare` is antisymmetric
(`compare a b` is the inversion of `compare b a`) and reflexive-`EQ`
(`compare c c = EQ`) — as every intended comparator in the repository is —
`goalCmp` satisfies `goalCmp(g, A, B) = invert (goalCmp(g, B, A))` and
comparing a state to itself yields `EQ`. -/
theorem goalCmp_antisymmetric_of_wellBehaved (goal : Goal V)
    (h1 : ∀ e ∈ goal.expectations, ∀ a b : Concept V,
      e.compare a b = (e.compare b a).invert)
    (h2 : ∀ e ∈ goal.expectations, ∀ c : Concept V, e.compare c c = Cmp.EQ) :
    (∀ agentA worldA agentB worldB : Store V,
      goalCmp goal agentA worldA agentB worldB =
        (goalCmp goal agentB worldB agentA worldA).invert) ∧
    (∀ agent world : Store V, goalCmp goal agent world agent world = Cmp.EQ) := by
  constructor
  · intro aA wA aB wB
    rw [goalCmp_eq_counts, goalCmp_eq_counts]
    have hGT : goal.expectations.countP
          (fun e => e.compare ⟨aA, wA⟩ ⟨aB, wB⟩ == Cmp.GT)
        = goal.expectations.countP
          (fun e => e.compare ⟨aB, wB⟩ ⟨aA, wA⟩ == Cmp.LT) := by
      apply List.countP_congr
      intro e he
      rw [h1 e he ⟨aA, wA⟩ ⟨aB, wB⟩]
      cases e.compare ⟨aB, wB⟩ ⟨aA, wA⟩ <;> simp [Cmp.invert]
    have hLT : goal.expectations.countP
          (fun e => e.compare ⟨aA, wA⟩ ⟨aB, wB⟩ == Cmp.LT)
        = goal.expectations.countP
          (fun e => e.compare ⟨aB, wB⟩ ⟨aA, wA⟩ == Cmp.GT) := by
      apply List.countP_congr
      intro e he
      rw [h1 e he ⟨aA, wA⟩ ⟨aB, wB⟩]
      cases e.compare ⟨aB, wB⟩ ⟨aA, wA⟩ <;> simp [Cmp.invert]
    rw [hGT, hLT]
    generalize goal.expectations.countP
      (fun e => e.compare ⟨aB, wB⟩ ⟨aA, wA⟩ == Cmp.GT) = m
    generalize goal.expectations.countP
      (fun e => e.compare ⟨aB, wB⟩ ⟨aA, wA⟩ == Cmp.LT) = n
    rcases Nat.lt_trichotomy m n with h | h | h
    · simp [show n > m from by omega, show ¬ m > n from by omega, Cmp.invert]
    · subst h
      simp [Cmp.invert]
    · simp [show m > n from by omega, show ¬ n > m from by omega, Cmp.invert]
  · intro agent world
    rw [goalCmp_eq_counts]
    have hz1 : goal.expectations.countP
        (fun e => e.compare ⟨agent, world⟩ ⟨agent, world⟩ == Cmp.GT) = 0 :=
      List.countP_eq_zero.mpr (fun e he => by rw [h2 e he]; simp)
    have hz2 : goal.expectations.countP
        (fun e => e.compare ⟨agent, world⟩ ⟨agent, world⟩ == Cmp.LT) = 0 :=
      List.countP_eq_zero.mpr (fun e he => by rw [h2 e he]; simp)
    rw [hz1, hz2]
    simp

/-- Witness for the amended claim C4, at the concrete well-behaved goal
`trivGoal` (constant-`EQ` comparator) and concrete stores. -/
theorem goalCmp_antisymmetric_witness :
    goalCmp trivGoal ([("a", 1)] : Store ℚ) [] [] [] =
      (goalCmp trivGoal ([] : Store ℚ) [] [("a", 1)] []).invert ∧
    goalCmp trivGoal ([("a", 1)] : Store ℚ) [] [("a", 1)] [] = Cmp.EQ :=
  ⟨(goalCmp_antisymmetric_of_wellBehaved trivGoal
      (by intro e he a b; rw [List.mem_singleton.mp he]; rfl)
      (by intro e he c; rw [List.mem_singleton.mp he]; rfl)).1 [("a", 1)] [] [] [],
   (goalCmp_antisymmetric_of_wellBehaved trivGoal
      (by intro e he a b; rw [List.mem_singleton.mp he]; rfl)
      (by intro e he c; rw [List.mem_singleton.mp he]; rfl)).2 [("a", 1)] []⟩

/-- Claim C7: the pseudo-agent store contract.  On an absent key: `put`
succeeds and `get` then returns the stored value, a second `put` of the
same key fails and `get` still returns the first value, while `set` fails
and leaves the store unchanged.  On a present key `set` succeeds and `get`
returns the new value.  `get` on a missing key returns `none` — it is a
total function, never an exception. -/
theorem store_contract {V : Type} (s : Store V) (k : String) (v v2 : V) :
    (Store.has s k = false →
      (Store.put s k v).1 = true ∧
      Store.get (Store.put s k v).2 k = some v ∧
      (Store.put (Store.put s k v).2 k v2).1 = false ∧
      Store.get (Store.put (Store.put s k v).2 k v2).2 k = some v ∧
      (Store.set s k v2).1 = false ∧ (Store.set s k v2).2 = s) ∧
    (Store.has s k = true →
      (Store.set s k v2).1 = true ∧ Store.get (Store.set s k v2).2 k = some v2) ∧
    (Store.has s k = false → Store.get s k = none) := by
  refine ⟨?_, ?_, ?_⟩
  · intro h
    have hg := Store.get_of_not_has h
    have hg2 : Store.get (s ++ [(k, v)]) k = some v := Store.get_append_self hg
    have hh2 : Store.has (s ++ [(k, v)]) k = true := Store.has_of_get hg2
    have hput : Store.put s k v = (true, s ++ [(k, v)]) := by
      simp [Store.put, h]
    have hput2 : Store.put (s ++ [(k, v)]) k v2 = (false, s ++ [(k, v)]) := by
      simp [Store.put, hh2]
    refine ⟨?_, ?_, ?_, ?_, ?_, ?_⟩
    · simp [hput]
    · simp [hput, hg2]
    · simp [hput, hput2]
    · simp [hput, hput2, hg2]
    · simp [Store.set, h]
    · simp [Store.set, h]
  · intro h
    unfold Store.has at h
    cases hg : Store.get s k with
    | none => rw [hg] at h; simp at h
    | some v0 =>
      refine ⟨by simp [Store.set, Store.has_of_get hg], ?_⟩
      simp only [Store.set, Store.has_of_get hg]
      simpa using Store.get_update_self v2 hg
  · exact Store.get_of_not_has

/-- Witness for claim C7 at concrete inputs: the empty rational store and
the key `"k"` for the absent-key clauses, the singleton store for the
present-key clause. -/
theorem store_contract_witness :
    ((Store.put ([] : Store ℚ) "k" 1).1 = true ∧
      Store.get (Store.put ([] : Store ℚ) "k" 1).2 "k" = some 1 ∧
      (Store.put (Store.put ([] : Store ℚ) "k" 1).2 "k" 2).1 = false ∧
      Store.get (Store.put (Store.put ([] : Store ℚ) "k" 1).2 "k" 2).2 "k" = some 1 ∧
      (Store.set ([] : Store ℚ) "k" 2).1 = false ∧
      (Store.set ([] : Store ℚ) "k" 2).2 = []) ∧
    ((Store.set ([("k", 1)] : Store ℚ) "k" 2).1 = true ∧
      Store.get (Store.set ([("k", 1)] : Store ℚ) "k" 2).2 "k" = some 2) ∧
    Store.get ([] : Store ℚ) "k" = none :=
  ⟨(store_contract ([] : Store ℚ) "k" 1 2).1 (by decide),
   (store_contract ([("k", 1)] : Store ℚ) "k" 1 2).2.1 (by decide),
   (store_contract ([] : Store ℚ) "k" 1 2).2.2 (by decide)⟩

/-- Claim C8: an effect built by `changeAmtEffect` from a
`(delta, min, max)` triple sets the target property, currently holding
`v`, to `min (max (v + delta) mn) mx` on the target store and leaves the
other store untouched; in particular delta `-4` with bounds `[0, 100]`
applied to a property at value `2` yields `0`, never a negative value. -/
theorem changeAmtEffect_clamps :
    (∀ (delta mn mx : ℚ) (p : String) (agent world : Store ℚ) (v : ℚ),
        Store.get agent p = some v →
        (changeAmtEffect (Sum.inr (delta, mn, mx)) Target.agent p).apply agent world =
          ((Store.set agent p (min (max (v + delta) mn) mx)).2, world)) ∧
    (∀ (delta mn mx : ℚ) (p : String) (agent world : Store ℚ) (v : ℚ),
        Store.get world p = some v →
        (changeAmtEffect (Sum.inr (delta, mn, mx)) Target.world p).apply agent world =
          (agent, (Store.set world p (min (max (v + delta) mn) mx)).2)) ∧
    Store.get ((changeAmtEffect (Sum.inr (-4, 0, 100)) Target.agent "x").apply
        [("x", 2)] []).1 "x" = some 0 := by
  have hA : ∀ (delta mn mx : ℚ) (p : String) (agent world : Store ℚ) (v : ℚ),
      Store.get agent p = some v →
      (changeAmtEffect (Sum.inr (delta, mn, mx)) Target.agent p).apply agent world =
        ((Store.set agent p (min (max (v + delta) mn) mx)).2, world) := by
    intro delta mn mx p agent world v h
    unfold changeAmtEffect
    dsimp only
    rw [h]
  refine ⟨hA, ?_, ?_⟩
  · intro delta mn mx p agent world v h
    unfold changeAmtEffect
    dsimp only
    rw [h]
  · rw [hA (-4) 0 100 "x" [("x", 2)] [] 2 (by decide)]
    simp [Store.set, Store.has, Store.get, Store.update]
    norm_num

/-- Witness for claim C8 at a concrete input: delta `-4`, bounds
`[0, 100]`, property `"x"` at value `2` on each target store. -/
theorem changeAmtEffect_clamps_witness :
    (changeAmtEffect (Sum.inr (-4, 0, 100)) Target.agent "x").apply [("x", 2)] [] =
      ((Store.set [("x", 2)] "x" (min (max ((2 : ℚ) + -4) 0) 100)).2, []) ∧
    (changeAmtEffect (Sum.inr (-4, 0, 100)) Target.world "x").apply [] [("x", 2)] =
      ([], (Store.set [("x", 2)] "x" (min (max ((2 : ℚ) + -4) 0) 100)).2) :=
  ⟨changeAmtEffect_clamps.1 (-4) 0 100 "x" [("x", 2)] [] 2 (by decide),
   changeAmtEffect_clamps.2.1 (-4) 0 100 "x" [] [("x", 2)] 2 (by decide)⟩

/-- Claim C2 evaluated at its failing input: with no registered actions
(so the search finds no extending action) and a goal with one (unmet)
expectation, `Planner.plan` does not return an `Option` — `introspect`
reads `.length` of `newPlans[0]`, which is `undefined`, and the call
throws a TypeError (embedded as `Except.error`), contradicting the claim
that failures surface as `Option.None` and `plan` never throws. -/
theorem plan_throws_on_no_candidates :
    (Planner.plan ([] : List (Action ℚ)) [] oneExpGoal [] []).1 =
      Except.error JsError.typeError ∧
    (Planner.plan ([] : List (Action ℚ)) [] oneExpGoal [] []).1 ≠ Except.ok none := by
  constructor
  · rfl
  · intro hcontra
    have h : (Except.error JsError.typeError :
        Except JsError (Option (List (Action ℚ)))) = Except.ok none := by
      rw [← hcontra]
      rfl
    simp at h

/-- One successful round of the planning loop: when `introspect` proposes
`op`, `op` can be performed on the real stores and `simulate` validates
the extended plan, the loop returns `Some (acc ++ [op])`. -/
theorem planLoop_step_done (actions ambient : List (Action V)) (goal : Goal V)
    (fuel : Nat) (acc : List (Action V)) (agent world : Store V) (op : Action V)
    (hio : (Planner.introspect actions ambient goal acc agent world 5).1 =
      Except.ok (some op))
    (hcan : op.canPerform agent world = true)
    (hsim : (Planner.simulate ambient goal (acc ++ [op]) agent world).1 = true) :
    (Planner.planLoop actions ambient goal (fuel + 1) acc agent world).1 =
      Except.ok (some (acc ++ [op])) := by
  simp only [Planner.planLoop]
  rw [hio]
  simp only [introspect_snd]
  simp [hcan, hsim]

/-- Counterexample to claim C3 as stated: two effect-free, zero-cost,
always-performable actions satisfy the premise vacuously (no effect exists
whose `check` could rank `GT` against any unmet expectation), yet
`Planner.plan` returns `Some [actB]` rather than the absent value the
claim requires. -/
theorem plan_infeasibility_counterexample :
    noEffectRanksGT [actA, actB] trivGoal [] [] ∧
    (Planner.plan [actA, actB] [] trivGoal [] []).1 = Except.ok (some [actB]) ∧
    (Planner.plan [actA, actB] [] trivGoal [] []).1 ≠ Except.ok none := by
  have h2 : (Planner.plan [actA, actB] [] trivGoal [] []).1 =
      Except.ok (some [actB]) := by
    rw [plan_of_expectations_ne [actA, actB] [] trivGoal [] [] (by simp [trivGoal])]
    exact planLoop_step_done [actA, actB] [] trivGoal 49 [] [] [] actB
      (by rfl) rfl (by rfl)
  refine ⟨?_, h2, ?_⟩
  · intro act hact fx hfx
    rcases List.mem_cons.mp hact with rfl | hact2
    · simp [actA] at hfx
    · rcases List.mem_cons.mp hact2 with rfl | hact3
      · simp [actB] at hfx
      · simp at hact3
  · intro hcontra
    rw [h2] at hcontra
    simp at hcontra

/-- Claim C3, amended: in the current `plan` the effect-`check`/`GT`
pre-filter of the legacy planner no longer exists, so its premise does not
force an absent result.  What infeasibility from the initial state does
cause is this: when the goal has at least one expectation and no
registered action can be performed on the (cloned) initial stores — in
particular when the registry is empty — `plan` produces no plan at all,
failing with the `introspect` TypeError rather than returning `Some` (and
never with `Option.None`). -/
theorem plan_errors_when_no_action_performable (actions ambient : List (Action V))
    (goal : Goal V) (agent world : Store V)
    (hexp : goal.expectations ≠ [])
    (hcp : ∀ a ∈ actions,
      a.canPerform (pseudoAgentFrom agent) (pseudoAgentFrom world) = false) :
    (Planner.plan actions ambient goal agent world).1 =
      Except.error JsError.typeError := by
  rw [plan_of_expectations_ne actions ambient goal agent world hexp]
  exact planLoop_of_error actions ambient goal 49 [] agent world JsError.typeError
    (introspect_of_no_plans actions ambient goal [] agent world 4
      (plan_introspection_no_candidates actions ambient goal 4 [] agent world
        (candidatePlans_empty actions ambient agent world hcp)))

/-- Witness for the amended claim C3 at a concrete input: empty action
registry, one-expectation goal, empty stores. -/
theorem plan_errors_when_no_action_performable_witness :
    (Planner.plan ([] : List (Action ℚ)) [] trivGoal [] []).1 =
      Except.error JsError.typeError :=
  plan_errors_when_no_action_performable [] [] trivGoal [] []
    (by simp [trivGoal]) (by intro a ha; simp at ha)

end Gaap
